import Mathlib

/-!
Shallow embedding of the UEFI PI firmware probe in `hw/arc/efi.c`.

The loaded image is a byte buffer modelled as `List Nat` (each cell one
byte).  Out-of-range reads are modelled as reading the byte 0, mirroring
the fact that the C code dereferences raw pointers computed from
header-supplied sizes without bounds checks.  Pointers are modelled as
byte offsets from the start of the buffer; the allocation base returned
by `g_malloc` is at least 8-byte aligned, so aligning a pointer is the
same as aligning its offset.  The two scan loops of the source can fail
to make progress (a decoded size of 0 leaves the position unchanged), so
they are embedded with an explicit fuel argument; a result of `none`
means the C loop has not returned within `fuel` iterations, and
`∀ fuel, ... = none` means the C loop diverges.
-/

namespace Efi

/-- Read one byte of a loaded buffer; out-of-range reads yield 0
(the C code would read past the allocation). -/
def byteAt (buf : List Nat) (i : Nat) : Nat := buf.getD i 0

/-- Little-endian 16-bit field at byte offset `off`. -/
def le16 (buf : List Nat) (off : Nat) : Nat :=
  byteAt buf off + 256 * byteAt buf (off + 1)

/-- Little-endian 32-bit field at byte offset `off`. -/
def le32 (buf : List Nat) (off : Nat) : Nat :=
  byteAt buf off + 256 * byteAt buf (off + 1) +
    65536 * byteAt buf (off + 2) + 16777216 * byteAt buf (off + 3)

/-- Little-endian 64-bit field at byte offset `off`. -/
def le64 (buf : List Nat) (off : Nat) : Nat :=
  le32 buf off + 4294967296 * le32 buf (off + 4)

/-- `get_size` from efi.c: decode the packed 3-byte size field and mask
with `0x0fff`. -/
def get_size (b0 b1 b2 : Nat) : Nat :=
  (b0 ||| b1 <<< 8 ||| b2 <<< 16) &&& 0x0fff

/-- Decode the 3-byte size field stored at offset `off` of the buffer. -/
def get_size3 (buf : List Nat) (off : Nat) : Nat :=
  get_size (byteAt buf off) (byteAt buf (off + 1)) (byteAt buf (off + 2))

/-- `align4_ptr` from efi.c: `(ptr + 3) & ~3ULL` on a 64-bit pointer. -/
def align4_ptr (p : Nat) : Nat := (p + 3) &&& 0xFFFFFFFFFFFFFFFC

/-- `align8_ptr` from efi.c: `(ptr + 7) & ~7ULL` on a 64-bit pointer. -/
def align8_ptr (p : Nat) : Nat := (p + 7) &&& 0xFFFFFFFFFFFFFFF8

/-- The bytes of the string literal `"_FVH"`. -/
def FV_SIGNATURE : List Nat := [95, 70, 86, 72]

/-- `*(uint32_t *) FV_SIGNATURE` on a little-endian host. -/
def fv_sign : Nat := le32 FV_SIGNATURE 0

/-- The bytes of the string literal `"VZ"`. -/
def TE_SIGNATURE : List Nat := [86, 90]

/-- `*(uint16_t *) TE_SIGNATURE` on a little-endian host. -/
def te_sign : Nat := le16 TE_SIGNATURE 0

def SECURITY_CORE : Nat := 0x03

def SECTION_TE : Nat := 0x12

def EFI_INVALID_ENTRY_POINT : Nat := 0xffffffff

def RESET_VECTOR_SIZE : Nat := 16

/-- `sizeof(struct fv_hdr)`: fields end at byte 50, padded to 56 by the
8-byte alignment of its `uint64_t` members. -/
def fv_hdr_size : Nat := 56

/-- `sizeof(struct file_hdr)` = 16 + 2 + 1 + 1 + 3 + 1 = 24. -/
def file_hdr_size : Nat := 24

/-- `sizeof(struct sect_hdr)` = 3 + 1 = 4. -/
def sect_hdr_size : Nat := 4

/-- Field offsets inside `struct file_hdr`: guid 0..15, integrity 16..17,
type 18, attrs 19, size 20..22, state 23. -/
def file_type_off : Nat := 18

def file_size_off : Nat := 20

/-- Offset of `entry_point` inside `struct te_hdr`: sign 0..1, mach 2..3,
sects_num 4, subsys 5, stripped_size 6..7, entry_point 8..11. -/
def te_entry_off : Nat := 8

/-- `reset_vector_empty` from efi.c: true iff the first 16 bytes are all
zero. -/
def reset_vector_empty (buf : List Nat) : Bool :=
  (List.range RESET_VECTOR_SIZE).all fun i => byteAt buf i == 0

/-- `check_te_sign` from efi.c: compare the 16-bit `sign` field of the TE
header at offset `te` with the bytes of "VZ". -/
def check_te_sign (buf : List Nat) (te : Nat) : Bool :=
  le16 buf te == te_sign

/-- The `while (ptr < end)` loop of `get_sec_entry_point`.  One fuel unit
per iteration; `none` means the loop has not returned within `fuel`
iterations. -/
def secLoop : Nat → List Nat → Nat → Nat → Option Nat
  | 0, _, _, _ => none
  | fuel + 1, buf, ptr, stop =>
    if ptr < stop then
      if byteAt buf (ptr + 3) ≠ SECTION_TE then
        secLoop fuel buf (align4_ptr (ptr + get_size3 buf ptr)) stop
      else if ¬ check_te_sign buf (ptr + sect_hdr_size) then
        some EFI_INVALID_ENTRY_POINT
      else
        some (le32 buf (ptr + sect_hdr_size + te_entry_off))
    else
      some EFI_INVALID_ENTRY_POINT

/-- `get_sec_entry_point` from efi.c, for the file header at offset
`file`: scan `[align4(file + 24), file + 24 + get_size(file->size))`. -/
def get_sec_entry_point (fuel : Nat) (buf : List Nat) (file : Nat) : Option Nat :=
  secLoop fuel buf (align4_ptr (file + file_hdr_size))
    (file + file_hdr_size + get_size3 buf (file + file_size_off))

/-- The `while (ptr < end)` loop of `get_entry_point`. -/
def fileLoop : Nat → List Nat → Nat → Nat → Option Nat
  | 0, _, _, _ => none
  | fuel + 1, buf, ptr, stop =>
    if ptr < stop then
      if byteAt buf (ptr + file_type_off) = SECURITY_CORE then
        get_sec_entry_point fuel buf ptr
      else
        fileLoop fuel buf (align8_ptr (ptr + get_size3 buf (ptr + file_size_off))) stop
    else
      some EFI_INVALID_ENTRY_POINT

/-- `get_entry_point` from efi.c: walk the file entries of the volume
whose header declares header length `hdrLen` and volume length `fvLen`. -/
def get_entry_point (fuel : Nat) (buf : List Nat) (hdrLen fvLen : Nat) : Option Nat :=
  fileLoop fuel buf (align8_ptr hdrLen) (hdrLen + fvLen)

/-- One invocation of the external ROM sink
`rom_add_blob_fixed("uefi", blob, fsize, 0)`. -/
structure RomCall where
  data : List Nat
  addr : Nat
  deriving DecidableEq, Repr

/-- Observable outcome of one probe call: the returned entry value, the
ROM-sink invocations performed, and whether `open` was attempted.
The probe diverging inside a scan loop is modelled by `none` at the
`Option ProbeOut` level. -/
structure ProbeOut where
  entry : Nat
  romCalls : List RomCall
  opened : Bool
  deriving DecidableEq, Repr

/-- `load_firmware` from efi.c: the whole file is already in `blob`
(the `read` of the full measured size succeeds by construction), the
entry point is computed, then the blob is handed to the ROM sink at
load address 0. -/
def load_firmware (fuel : Nat) (blob : List Nat) (hdrLen fvLen : Nat) :
    Option (Nat × List RomCall) :=
  match get_entry_point fuel blob hdrLen fvLen with
  | none => none
  | some e => some (e, [⟨blob, 0⟩])

/-- `efi_probe_firmware` from efi.c.  The input models the file system:
`none` is a NULL path, `some none` a path `open` fails on, and
`some (some buf)` a readable file with contents `buf`. -/
def efi_probe_firmware (fuel : Nat) (file : Option (Option (List Nat))) :
    Option ProbeOut :=
  match file with
  | none => some ⟨EFI_INVALID_ENTRY_POINT, [], false⟩
  | some none => some ⟨EFI_INVALID_ENTRY_POINT, [], true⟩
  | some (some buf) =>
    if buf.length < fv_hdr_size then
      some ⟨0, [], true⟩
    else if le32 buf 40 ≠ fv_sign then
      some ⟨0, [], true⟩
    else if ¬ reset_vector_empty buf then
      some ⟨0, [], true⟩
    else
      match load_firmware fuel buf (le16 buf 48) (le64 buf 32) with
      | none => none
      | some (e, calls) => some ⟨e, calls, true⟩

/-- Ghost observer for the section scan: the list of offsets at which the
loop body of `get_sec_entry_point` decodes a `struct sect_hdr`
(dereferences `sect->type`), mirroring `secLoop` step for step. -/
def secLoopPositions : Nat → List Nat → Nat → Nat → List Nat
  | 0, _, _, _ => []
  | fuel + 1, buf, ptr, stop =>
    if ptr < stop then
      if byteAt buf (ptr + 3) ≠ SECTION_TE then
        ptr :: secLoopPositions fuel buf (align4_ptr (ptr + get_size3 buf ptr)) stop
      else
        [ptr]
    else
      []

/-- Ghost observer for the file scan: the offsets at which the loop body
of `get_entry_point` decodes a `struct file_hdr`. -/
def fileLoopPositions : Nat → List Nat → Nat → Nat → List Nat
  | 0, _, _, _ => []
  | fuel + 1, buf, ptr, stop =>
    if ptr < stop then
      if byteAt buf (ptr + file_type_off) = SECURITY_CORE then
        [ptr]
      else
        ptr :: fileLoopPositions fuel buf
          (align8_ptr (ptr + get_size3 buf (ptr + file_size_off))) stop
    else
      []

/-- Ghost observer for the file scan: `some true` if a Security-Core file
is encountered, `some false` if the range is exhausted without one,
`none` if the loop does not finish within `fuel` iterations. -/
def fileLoopFoundSec : Nat → List Nat → Nat → Nat → Option Bool
  | 0, _, _, _ => none
  | fuel + 1, buf, ptr, stop =>
    if ptr < stop then
      if byteAt buf (ptr + file_type_off) = SECURITY_CORE then
        some true
      else
        fileLoopFoundSec fuel buf
          (align8_ptr (ptr + get_size3 buf (ptr + file_size_off))) stop
    else
      some false

/-! Synthetic-image builder: the byte layout of a well-formed firmware
volume, used to state the universal functional-correctness claim.  The
layout follows the binary format of efi.c: a 50-byte volume header
(padded by `filler` up to the declared `hdr_len`), 8-aligned file
entries, and inside the Security-Core file 4-aligned section entries. -/

/-- Little-endian encoding of a 16-bit field. -/
def le16enc (n : Nat) : List Nat := [n % 256, n / 256 % 256]

/-- Little-endian encoding of a 32-bit field. -/
def le32enc (n : Nat) : List Nat :=
  [n % 256, n / 256 % 256, n / 65536 % 256, n / 16777216 % 256]

/-- Little-endian encoding of a 64-bit field. -/
def le64enc (n : Nat) : List Nat :=
  [n % 256, n / 256 % 256, n / 65536 % 256, n / 16777216 % 256,
   n / 4294967296 % 256, n / 1099511627776 % 256,
   n / 281474976710656 % 256, n / 72057594037927936 % 256]

/-- Encoding of the packed 3-byte size field. -/
def size3enc (n : Nat) : List Nat := [n % 256, n / 256 % 256, n / 65536 % 256]

/-- Padding needed after `n` bytes to reach a 4-byte boundary. -/
def pad4 (n : Nat) : Nat := (4 - n % 4) % 4

/-- Padding needed after `n` bytes to reach an 8-byte boundary. -/
def pad8 (n : Nat) : Nat := (8 - n % 8) % 8

/-- A section entry of the synthetic image (type plus body bytes). -/
structure SectSpec where
  type : Nat
  body : List Nat

/-- Byte layout of one section entry, padded to the next 4-byte
boundary; the size field holds the section's total size. -/
def sectBlock (s : SectSpec) : List Nat :=
  size3enc (sect_hdr_size + s.body.length) ++ [s.type] ++ s.body ++
    List.replicate (pad4 (sect_hdr_size + s.body.length)) 0

/-- Byte layout of a list of section entries. -/
def sectsBytes : List SectSpec → List Nat
  | [] => []
  | s :: rest => sectBlock s ++ sectsBytes rest

/-- A file entry of the synthetic image. -/
structure FileSpec where
  guid : List Nat
  int2 : List Nat
  type : Nat
  attrs : Nat
  state : Nat
  payload : List Nat

/-- The 24 header bytes of one file entry; the size field holds the
file's total size including the header. -/
def fileHdrBytes (f : FileSpec) : List Nat :=
  f.guid ++ f.int2 ++ [f.type, f.attrs] ++
    size3enc (file_hdr_size + f.payload.length) ++ [f.state]

/-- Byte layout of one file entry: 24-byte header then payload. -/
def fileBytes (f : FileSpec) : List Nat := fileHdrBytes f ++ f.payload

/-- One file entry padded to the next 8-byte boundary. -/
def fileBlock (f : FileSpec) : List Nat :=
  fileBytes f ++ List.replicate (pad8 (file_hdr_size + f.payload.length)) 0

/-- Byte layout of a list of file entries. -/
def filesBytes : List FileSpec → List Nat
  | [] => []
  | f :: rest => fileBlock f ++ filesBytes rest

/-- Body of the TE section: "VZ" signature, the six bytes mach through
stripped_size, the 32-bit entry point, then the rest of the TE image. -/
def teBody (mid : List Nat) (entry : Nat) (tail : List Nat) : List Nat :=
  [86, 90] ++ mid ++ le32enc entry ++ tail

/-- The TE section: section header of type 0x12 followed by the TE
header. -/
def teSect (mid : List Nat) (entry : Nat) (tail : List Nat) : List Nat :=
  size3enc (sect_hdr_size + (teBody mid entry tail).length) ++ [SECTION_TE] ++
    teBody mid entry tail

/-- All parameters of a synthetic well-formed firmware image: volume
header fields, the non-Security-Core files preceding the single
Security-Core file, that file's non-TE sections preceding its single TE
section, the TE entry point, and arbitrary trailing bytes. -/
structure ImageSpec where
  fvGuid : List Nat
  fvAttrs : List Nat
  fvLen : Nat
  filler : List Nat
  pre : List FileSpec
  secGuid : List Nat
  secInt : List Nat
  secAttrs : Nat
  secState : Nat
  preSecs : List SectSpec
  teMid : List Nat
  entry : Nat
  teTail : List Nat
  trail : List Nat

/-- Declared `hdr_len` of the synthetic volume: 50 header bytes plus the
filler up to the first file entry. -/
def ImageSpec.hdrLen (s : ImageSpec) : Nat := 50 + s.filler.length

/-- Payload of the Security-Core file: the non-TE sections then the TE
section. -/
def ImageSpec.secPayload (s : ImageSpec) : List Nat :=
  sectsBytes s.preSecs ++ teSect s.teMid s.entry s.teTail

/-- The Security-Core file entry as a `FileSpec`. -/
def ImageSpec.secSpec (s : ImageSpec) : FileSpec :=
  ⟨s.secGuid, s.secInt, SECURITY_CORE, s.secAttrs, s.secState, s.secPayload⟩

/-- The full synthetic image: volume header, filler, alignment gap,
file entries, the Security-Core file, then trailing bytes. -/
def mkImage (s : ImageSpec) : List Nat :=
  List.replicate 16 0 ++ s.fvGuid ++ le64enc s.fvLen ++ FV_SIGNATURE ++
    s.fvAttrs ++ le16enc s.hdrLen ++ s.filler ++
    List.replicate (pad8 s.hdrLen) 0 ++ filesBytes s.pre ++
    fileBlock s.secSpec ++ s.trail

/-- The bytes of the synthetic image before the first file entry:
volume header, filler, and the gap up to the first 8-byte boundary. -/
def ImageSpec.hdrRegion (s : ImageSpec) : List Nat :=
  List.replicate 16 0 ++ s.fvGuid ++ le64enc s.fvLen ++ FV_SIGNATURE ++
    s.fvAttrs ++ le16enc s.hdrLen ++ s.filler ++
    List.replicate (pad8 s.hdrLen) 0

/-- Well-formedness of one non-Security-Core file entry: byte-valued
type tag distinct from the Security-Core tag, guid and integrity fields
of the right width, and a total size small enough to survive the 12-bit
size mask. -/
def FileSpec.ok (f : FileSpec) : Prop :=
  f.guid.length = 16 ∧ f.int2.length = 2 ∧ f.type < 256 ∧
    f.type ≠ SECURITY_CORE ∧ file_hdr_size + f.payload.length ≤ 0x0fff

/-- Well-formedness of one non-TE section entry. -/
def SectSpec.ok (s : SectSpec) : Prop :=
  s.type < 256 ∧ s.type ≠ SECTION_TE ∧ sect_hdr_size + s.body.length ≤ 0x0fff

instance FileSpec.okDecidable (f : FileSpec) : Decidable f.ok := by
  unfold FileSpec.ok; infer_instance

instance SectSpec.okDecidable (t : SectSpec) : Decidable t.ok := by
  unfold SectSpec.ok; infer_instance

/-- Well-formedness of the full synthetic image: fixed-width fields have
the right widths, sizes survive the 12-bit mask, the declared volume
region covers the image, and the whole image fits comfortably below the
64-bit address limit. -/
def ImageSpec.WF (s : ImageSpec) : Prop :=
  s.fvGuid.length = 16 ∧ s.fvAttrs.length = 4 ∧
    s.secGuid.length = 16 ∧ s.secInt.length = 2 ∧ s.teMid.length = 6 ∧
    s.hdrLen < 65536 ∧ s.fvLen < 2 ^ 64 ∧ s.entry < 2 ^ 32 ∧
    file_hdr_size + s.secPayload.length ≤ 0x0fff ∧
    (∀ f ∈ s.pre, f.ok) ∧ (∀ t ∈ s.preSecs, t.ok) ∧
    (mkImage s).length ≤ s.hdrLen + s.fvLen ∧
    (mkImage s).length + 8 < 2 ^ 64

instance ImageSpec.wfDecidable (s : ImageSpec) : Decidable s.WF := by
  unfold ImageSpec.WF; infer_instance

/-- Ghost observer: the section-header decode offsets of
`get_sec_entry_point` for the file at offset `file`, over the same range
the source computes. -/
def secScanPositions (fuel : Nat) (buf : List Nat) (file : Nat) : List Nat :=
  secLoopPositions fuel buf (align4_ptr (file + file_hdr_size))
    (file + file_hdr_size + get_size3 buf (file + file_size_off))

/-- A file shorter than `sizeof(struct fv_hdr)`: reading the volume
header from it is a short read. -/
def shortFile : List Nat := List.replicate 10 0

/-- A 56-byte file of zeroes: the header read succeeds but the signature
is not "_FVH". -/
def bufBadSig : List Nat := List.replicate 56 0

/-- A 56-byte volume with a valid signature and a non-zero first
reset-vector byte. -/
def bufRv : List Nat :=
  [1] ++ List.replicate 15 0 ++ List.replicate 16 0 ++ le64enc 0 ++
    FV_SIGNATURE ++ List.replicate 4 0 ++ le16enc 56 ++ List.replicate 6 0

/-- A 56-byte volume with a valid signature, all-zero reset vector,
`hdr_len` 56 and `fv_len` 0: the file scan range is empty, so no
Security-Core file is found. -/
def buf5 : List Nat :=
  List.replicate 32 0 ++ le64enc 0 ++ FV_SIGNATURE ++ List.replicate 4 0 ++
    le16enc 56 ++ List.replicate 6 0

/-- A valid volume holding one non-Security-Core file entry whose 3-byte
size field encodes 0x1000: the 12-bit mask decodes it to 0, so the file
scan never advances. -/
def buf7 : List Nat :=
  List.replicate 32 0 ++ le64enc 4096 ++ FV_SIGNATURE ++ List.replicate 4 0 ++
    le16enc 56 ++ List.replicate 6 0 ++
    List.replicate 16 0 ++ [0, 0] ++ [0, 0] ++ [0, 16, 0] ++ [0]

/-- A Security-Core file at offset 0 whose size field decodes to 24
(header only, empty payload), followed by further bytes: the section
scan still decodes a section header at the payload end. -/
def bufC3 : List Nat :=
  List.replicate 16 0 ++ [0, 0] ++ [3, 0] ++ [24, 0, 0] ++ [0] ++
    List.replicate 24 0

/-- A valid 56-byte volume whose header declares `fv_len` 4096: the file
scan decodes a file header entirely beyond the 56-byte buffer. -/
def bufC6 : List Nat :=
  List.replicate 32 0 ++ le64enc 4096 ++ FV_SIGNATURE ++ List.replicate 4 0 ++
    le16enc 56 ++ List.replicate 6 0

/-- A minimal well-formed image: no filler, no other files, no other
sections, all unused fields zero, TE entry point `entry`. -/
def mkSimpleSpec (entry : Nat) : ImageSpec :=
  ⟨List.replicate 16 0, List.replicate 4 0, 4096, [], [],
    List.replicate 16 0, List.replicate 2 0, 0, 0, [],
    List.replicate 6 0, entry, [], []⟩

/-! Reading across list appends. -/

theorem byteAt_append_left (X Y : List Nat) (i : Nat) (h : i < X.length) :
    byteAt (X ++ Y) i = byteAt X i :=
  List.getD_append X Y 0 i h

theorem byteAt_append_right (X Y : List Nat) (i : Nat) (h : X.length ≤ i) :
    byteAt (X ++ Y) i = byteAt Y (i - X.length) :=
  List.getD_append_right X Y 0 i h

theorem le16_append_right (X Y : List Nat) (off : Nat) (h : X.length ≤ off) :
    le16 (X ++ Y) off = le16 Y (off - X.length) := by
  unfold le16
  rw [byteAt_append_right X Y off h, byteAt_append_right X Y (off + 1) (by omega)]
  have h1 : off + 1 - X.length = off - X.length + 1 := by omega
  rw [h1]

theorem le32_append_right (X Y : List Nat) (off : Nat) (h : X.length ≤ off) :
    le32 (X ++ Y) off = le32 Y (off - X.length) := by
  unfold le32
  rw [byteAt_append_right X Y off h, byteAt_append_right X Y (off + 1) (by omega),
    byteAt_append_right X Y (off + 2) (by omega),
    byteAt_append_right X Y (off + 3) (by omega)]
  have h1 : off + 1 - X.length = off - X.length + 1 := by omega
  have h2 : off + 2 - X.length = off - X.length + 2 := by omega
  have h3 : off + 3 - X.length = off - X.length + 3 := by omega
  rw [h1, h2, h3]

theorem le64_append_right (X Y : List Nat) (off : Nat) (h : X.length ≤ off) :
    le64 (X ++ Y) off = le64 Y (off - X.length) := by
  unfold le64
  rw [le32_append_right X Y off h, le32_append_right X Y (off + 4) (by omega)]
  have h4 : off + 4 - X.length = off - X.length + 4 := by omega
  rw [h4]

theorem get_size3_append_right (X Y : List Nat) (off : Nat) (h : X.length ≤ off) :
    get_size3 (X ++ Y) off = get_size3 Y (off - X.length) := by
  unfold get_size3
  rw [byteAt_append_right X Y off h, byteAt_append_right X Y (off + 1) (by omega),
    byteAt_append_right X Y (off + 2) (by omega)]
  have h1 : off + 1 - X.length = off - X.length + 1 := by omega
  have h2 : off + 2 - X.length = off - X.length + 2 := by omega
  rw [h1, h2]

/-! Decoding the little-endian encoders. -/

theorem le16_enc (n : Nat) (R : List Nat) : le16 (le16enc n ++ R) 0 = n % 65536 := by
  simp [le16, le16enc, byteAt, List.getD_cons_zero, List.getD_cons_succ]
  omega

theorem le32_enc (n : Nat) (R : List Nat) : le32 (le32enc n ++ R) 0 = n % 4294967296 := by
  simp [le32, le32enc, byteAt, List.getD_cons_zero, List.getD_cons_succ]
  omega

theorem le64_enc (n : Nat) (R : List Nat) :
    le64 (le64enc n ++ R) 0 = n % 18446744073709551616 := by
  simp [le64, le32, le64enc, byteAt, List.getD_cons_zero, List.getD_cons_succ]
  omega

/-! Bridging the bit-level definitions to arithmetic. -/

theorem get_size_eq (b0 b1 b2 : Nat) (h0 : b0 < 256) (h1 : b1 < 256) :
    get_size b0 b1 b2 = (b0 + 256 * b1 + 65536 * b2) % 4096 := by
  unfold get_size
  have e8 : b1 <<< 8 = b1 * 256 := by rw [Nat.shiftLeft_eq]
  have e16 : b2 <<< 16 = b2 * 65536 := by rw [Nat.shiftLeft_eq]
  have hor1 : b0 ||| b1 <<< 8 = 256 * b1 + b0 := by
    rw [e8, Nat.or_comm, Nat.mul_comm b1 256]
    exact (Nat.mul_add_lt_is_or (by omega : b0 < 2 ^ 8) b1).symm
  have hlt : 256 * b1 + b0 < 65536 := by omega
  have hor2 : (b0 ||| b1 <<< 8) ||| b2 <<< 16 = 65536 * b2 + (256 * b1 + b0) := by
    rw [hor1, e16, Nat.or_comm, Nat.mul_comm b2 65536]
    exact (Nat.mul_add_lt_is_or (by omega : 256 * b1 + b0 < 2 ^ 16) b2).symm
  rw [hor2]
  have hmask : (0x0fff : Nat) = 2 ^ 12 - 1 := by norm_num
  rw [hmask, Nat.and_pow_two_sub_one_eq_mod]
  norm_num
  omega

theorem get_size3_enc (n : Nat) (R : List Nat) :
    get_size3 (size3enc n ++ R) 0 = n % 4096 := by
  unfold get_size3 size3enc
  rw [show byteAt ([n % 256, n / 256 % 256, n / 65536 % 256] ++ R) 0 = n % 256 from rfl,
    show byteAt ([n % 256, n / 256 % 256, n / 65536 % 256] ++ R) 1 = n / 256 % 256 from rfl,
    show byteAt ([n % 256, n / 256 % 256, n / 65536 % 256] ++ R) 2 = n / 65536 % 256 from rfl]
  rw [get_size_eq _ _ _ (by omega) (by omega)]
  omega

/-- The masked bits of a 64-bit "and" with an aligned high mask:
for `x` below `2 ^ 64`, `x &&& (2 ^ 64 - 2 ^ k)` clears the low `k`
bits. -/
theorem and_high_mask (x k : Nat) (hk : k ≤ 64) (hx : x < 2 ^ 64) :
    x &&& (2 ^ 64 - 2 ^ k) = x - x % 2 ^ k := by
  have hmaskrw : (2 : Nat) ^ 64 - 2 ^ k = (2 ^ (64 - k) - 1) <<< k := by
    rw [Nat.shiftLeft_eq, Nat.sub_mul, one_mul, ← Nat.pow_add]
    rw [Nat.sub_add_cancel hk]
  have hrhs : x - x % 2 ^ k = (x >>> k) <<< k := by
    rw [Nat.shiftLeft_eq, Nat.shiftRight_eq_div_pow]
    have h := Nat.div_add_mod x (2 ^ k)
    have h2 : 2 ^ k * (x / 2 ^ k) = x / 2 ^ k * 2 ^ k := Nat.mul_comm _ _
    omega
  rw [hmaskrw, hrhs]
  apply Nat.eq_of_testBit_eq
  intro i
  rw [Nat.testBit_and, Nat.testBit_shiftLeft, Nat.testBit_shiftLeft,
    Nat.testBit_shiftRight, Nat.testBit_two_pow_sub_one]
  by_cases hik : k ≤ i
  · have h3 : k + (i - k) = i := by omega
    by_cases hi : i < 64
    · have h2 : i - k < 64 - k := by omega
      simp [hik, h2, h3, ge_iff_le]
    · have hxf : x.testBit i = false :=
        Nat.testBit_lt_two_pow
          (lt_of_lt_of_le hx (Nat.pow_le_pow_right (by norm_num) (by omega)))
      have h2 : ¬ (i - k < 64 - k) := by omega
      simp [hik, h2, h3, hxf, ge_iff_le]
  · simp [hik, ge_iff_le]

theorem align8_eq (p : Nat) (h : p + 7 < 2 ^ 64) :
    align8_ptr p = (p + 7) - (p + 7) % 8 := by
  unfold align8_ptr
  have hm : (0xFFFFFFFFFFFFFFF8 : Nat) = 2 ^ 64 - 2 ^ 3 := by norm_num
  rw [hm, and_high_mask (p + 7) 3 (by norm_num) (by omega)]
  norm_num

theorem align4_eq (p : Nat) (h : p + 3 < 2 ^ 64) :
    align4_ptr p = (p + 3) - (p + 3) % 4 := by
  unfold align4_ptr
  have hm : (0xFFFFFFFFFFFFFFFC : Nat) = 2 ^ 64 - 2 ^ 2 := by norm_num
  rw [hm, and_high_mask (p + 3) 2 (by norm_num) (by omega)]
  norm_num

theorem align8_id (p : Nat) (hp : p % 8 = 0) (h : p + 7 < 2 ^ 64) :
    align8_ptr p = p := by
  rw [align8_eq p h]; omega

theorem align4_id (p : Nat) (hp : p % 4 = 0) (h : p + 3 < 2 ^ 64) :
    align4_ptr p = p := by
  rw [align4_eq p h]; omega

theorem align8_add (p s : Nat) (hp : p % 8 = 0) (h : p + s + 7 < 2 ^ 64) :
    align8_ptr (p + s) = p + s + pad8 s := by
  rw [align8_eq (p + s) h]; unfold pad8; omega

theorem align4_add (p s : Nat) (hp : p % 4 = 0) (h : p + s + 3 < 2 ^ 64) :
    align4_ptr (p + s) = p + s + pad4 s := by
  rw [align4_eq (p + s) h]; unfold pad4; omega

/-! Shapes and field accessors of the builder blocks. -/

theorem pad4_lt (n : Nat) : pad4 n < 4 := by unfold pad4; omega

theorem pad8_lt (n : Nat) : pad8 n < 8 := by unfold pad8; omega

theorem pad4_mod (n : Nat) : (n + pad4 n) % 4 = 0 := by unfold pad4; omega

theorem pad8_mod (n : Nat) : (n + pad8 n) % 8 = 0 := by unfold pad8; omega

theorem sectBlock_length (t : SectSpec) :
    (sectBlock t).length =
      sect_hdr_size + t.body.length + pad4 (sect_hdr_size + t.body.length) := by
  simp [sectBlock, size3enc, sect_hdr_size]
  omega

theorem sectBlock_length_mod (t : SectSpec) : (sectBlock t).length % 4 = 0 := by
  rw [sectBlock_length]
  unfold pad4
  omega

theorem sectBlock_type (t : SectSpec) (R : List Nat) :
    byteAt (sectBlock t ++ R) 3 = t.type := by
  simp [sectBlock, size3enc, byteAt]

theorem sectBlock_sizeField (t : SectSpec) (R : List Nat)
    (h : sect_hdr_size + t.body.length ≤ 0x0fff) :
    get_size3 (sectBlock t ++ R) 0 = sect_hdr_size + t.body.length := by
  have hshape : sectBlock t ++ R =
      size3enc (sect_hdr_size + t.body.length) ++
        ([t.type] ++ (t.body ++
          (List.replicate (pad4 (sect_hdr_size + t.body.length)) 0 ++ R))) := by
    simp [sectBlock, List.append_assoc]
  rw [hshape, get_size3_enc]
  omega

theorem fileBytes_length (f : FileSpec) (h16 : f.guid.length = 16)
    (h2 : f.int2.length = 2) :
    (fileBytes f).length = file_hdr_size + f.payload.length := by
  simp [fileBytes, fileHdrBytes, size3enc, file_hdr_size, h16, h2]
  omega

theorem fileBlock_length (f : FileSpec) (h16 : f.guid.length = 16)
    (h2 : f.int2.length = 2) :
    (fileBlock f).length = file_hdr_size + f.payload.length +
      pad8 (file_hdr_size + f.payload.length) := by
  simp [fileBlock, fileBytes_length f h16 h2]

theorem fileBlock_length_mod (f : FileSpec) (h16 : f.guid.length = 16)
    (h2 : f.int2.length = 2) : (fileBlock f).length % 8 = 0 := by
  rw [fileBlock_length f h16 h2]
  unfold pad8
  omega

theorem fileBlock_type (f : FileSpec) (R : List Nat) (h16 : f.guid.length = 16)
    (h2 : f.int2.length = 2) :
    byteAt (fileBlock f ++ R) file_type_off = f.type := by
  have hshape : fileBlock f ++ R =
      f.guid ++ (f.int2 ++ ([f.type, f.attrs] ++
        (size3enc (file_hdr_size + f.payload.length) ++ ([f.state] ++
          (f.payload ++
            (List.replicate (pad8 (file_hdr_size + f.payload.length)) 0 ++ R)))))) := by
    simp [fileBlock, fileBytes, fileHdrBytes, List.append_assoc]
  rw [hshape]
  rw [show file_type_off = 18 from rfl]
  rw [byteAt_append_right _ _ 18 (by omega)]
  have e1 : 18 - f.guid.length = 2 := by omega
  rw [e1, byteAt_append_right _ _ 2 (by omega)]
  have e2 : 2 - f.int2.length = 0 := by omega
  rw [e2]
  rfl

theorem fileBlock_sizeField (f : FileSpec) (R : List Nat) (h16 : f.guid.length = 16)
    (h2 : f.int2.length = 2) (h : file_hdr_size + f.payload.length ≤ 0x0fff) :
    get_size3 (fileBlock f ++ R) file_size_off = file_hdr_size + f.payload.length := by
  have hshape : fileBlock f ++ R =
      f.guid ++ (f.int2 ++ ([f.type, f.attrs] ++
        (size3enc (file_hdr_size + f.payload.length) ++ ([f.state] ++
          (f.payload ++
            (List.replicate (pad8 (file_hdr_size + f.payload.length)) 0 ++ R)))))) := by
    simp [fileBlock, fileBytes, fileHdrBytes, List.append_assoc]
  rw [hshape]
  rw [show file_size_off = 20 from rfl]
  rw [get_size3_append_right _ _ 20 (by omega)]
  have e1 : 20 - f.guid.length = 4 := by omega
  rw [e1, get_size3_append_right _ _ 4 (by omega)]
  have e2 : 4 - f.int2.length = 2 := by omega
  rw [e2, get_size3_append_right _ _ 2 (by simp)]
  rw [show 2 - ([f.type, f.attrs] : List Nat).length = 0 from rfl]
  rw [get_size3_enc]
  omega

/-! One-step unfolding of the scan loops. -/

theorem secLoop_step_skip (fuel : Nat) (buf : List Nat) (ptr stop : Nat)
    (h1 : ptr < stop) (h2 : byteAt buf (ptr + 3) ≠ SECTION_TE) :
    secLoop (fuel + 1) buf ptr stop =
      secLoop fuel buf (align4_ptr (ptr + get_size3 buf ptr)) stop := by
  simp only [secLoop]
  rw [if_pos h1, if_pos h2]

theorem secLoop_step_te (fuel : Nat) (buf : List Nat) (ptr stop : Nat)
    (h1 : ptr < stop) (h2 : byteAt buf (ptr + 3) = SECTION_TE)
    (h3 : check_te_sign buf (ptr + sect_hdr_size) = true) :
    secLoop (fuel + 1) buf ptr stop =
      some (le32 buf (ptr + sect_hdr_size + te_entry_off)) := by
  simp only [secLoop]
  rw [if_pos h1, if_neg (by simp [h2]), if_neg (by simp [h3])]

theorem secLoop_stop (fuel : Nat) (buf : List Nat) (ptr stop : Nat)
    (h1 : ¬ ptr < stop) :
    secLoop (fuel + 1) buf ptr stop = some EFI_INVALID_ENTRY_POINT := by
  simp only [secLoop]
  rw [if_neg h1]

theorem fileLoop_step_skip (fuel : Nat) (buf : List Nat) (ptr stop : Nat)
    (h1 : ptr < stop) (h2 : byteAt buf (ptr + file_type_off) ≠ SECURITY_CORE) :
    fileLoop (fuel + 1) buf ptr stop =
      fileLoop fuel buf (align8_ptr (ptr + get_size3 buf (ptr + file_size_off))) stop := by
  simp only [fileLoop]
  rw [if_pos h1, if_neg h2]

theorem fileLoop_step_sec (fuel : Nat) (buf : List Nat) (ptr stop : Nat)
    (h1 : ptr < stop) (h2 : byteAt buf (ptr + file_type_off) = SECURITY_CORE) :
    fileLoop (fuel + 1) buf ptr stop = get_sec_entry_point fuel buf ptr := by
  simp only [fileLoop]
  rw [if_pos h1, if_pos h2]

theorem fileLoop_stop (fuel : Nat) (buf : List Nat) (ptr stop : Nat)
    (h1 : ¬ ptr < stop) :
    fileLoop (fuel + 1) buf ptr stop = some EFI_INVALID_ENTRY_POINT := by
  simp only [fileLoop]
  rw [if_neg h1]

/-! Walking a run of well-formed non-matching blocks advances the scan
position past their layout, one fuel unit per block. -/

theorem secLoop_run (ts : List SectSpec) :
    ∀ (fuel : Nat) (buf X rest : List Nat) (stop : Nat),
      (∀ t ∈ ts, t.ok) →
      buf = X ++ (sectsBytes ts ++ rest) →
      X.length % 4 = 0 →
      X.length + (sectsBytes ts).length ≤ stop →
      buf.length + 8 < 2 ^ 64 →
      ts.length ≤ fuel →
      secLoop fuel buf X.length stop =
        secLoop (fuel - ts.length) buf (X.length + (sectsBytes ts).length) stop := by
  induction ts with
  | nil =>
    intro fuel buf X rest stop _ _ _ _ _ _
    simp [sectsBytes]
  | cons t ts2 ih =>
    intro fuel buf X rest stop hok hbuf hX4 hstop hbound hfuel
    obtain ⟨_, htne, hsz⟩ := hok t (by simp)
    cases fuel with
    | zero => simp at hfuel
    | succ f =>
      have h4 : sect_hdr_size = 4 := rfl
      have hshape : buf = X ++ (sectBlock t ++ (sectsBytes ts2 ++ rest)) := by
        rw [hbuf]; simp [sectsBytes, List.append_assoc]
      have hblock := sectBlock_length t
      have hpadlt := pad4_lt (sect_hdr_size + t.body.length)
      have hslen : (sectsBytes (t :: ts2)).length =
          (sectBlock t).length + (sectsBytes ts2).length := by
        simp [sectsBytes]
      have hlen : buf.length =
          X.length + ((sectBlock t).length + ((sectsBytes ts2).length + rest.length)) := by
        rw [hshape]; simp
      have h1 : X.length < stop := by rw [hslen] at hstop; omega
      have h2 : byteAt buf (X.length + 3) = t.type := by
        rw [hshape, byteAt_append_right _ _ _ (by omega),
          show X.length + 3 - X.length = 3 by omega]
        exact sectBlock_type t _
      have hszf : get_size3 buf X.length = sect_hdr_size + t.body.length := by
        rw [hshape, get_size3_append_right _ _ _ (le_refl _), Nat.sub_self]
        exact sectBlock_sizeField t _ hsz
      have hadv : align4_ptr (X.length + get_size3 buf X.length) =
          (X ++ sectBlock t).length := by
        rw [hszf, align4_add _ _ hX4 (by omega), List.length_append, hblock]
        omega
      rw [secLoop_step_skip f buf X.length stop h1 (by rw [h2]; exact htne)]
      rw [hadv]
      have e2 : X.length + (sectsBytes (t :: ts2)).length =
          (X ++ sectBlock t).length + (sectsBytes ts2).length := by
        rw [hslen, List.length_append]; omega
      rw [e2]
      have e3 : f + 1 - (t :: ts2).length = f - ts2.length := by
        simp only [List.length_cons]; omega
      rw [e3]
      exact ih f buf (X ++ sectBlock t) rest stop
        (fun t' ht' => hok t' (by simp [ht']))
        (by rw [hshape]; simp [List.append_assoc])
        (by rw [List.length_append]; have := sectBlock_length_mod t; omega)
        (by rw [List.length_append]; rw [hslen] at hstop; omega)
        hbound
        (by simp only [List.length_cons] at hfuel; omega)

theorem fileLoop_run (fs : List FileSpec) :
    ∀ (fuel : Nat) (buf X rest : List Nat) (stop : Nat),
      (∀ f ∈ fs, f.ok) →
      buf = X ++ (filesBytes fs ++ rest) →
      X.length % 8 = 0 →
      X.length + (filesBytes fs).length ≤ stop →
      buf.length + 8 < 2 ^ 64 →
      fs.length ≤ fuel →
      fileLoop fuel buf X.length stop =
        fileLoop (fuel - fs.length) buf (X.length + (filesBytes fs).length) stop := by
  induction fs with
  | nil =>
    intro fuel buf X rest stop _ _ _ _ _ _
    simp [filesBytes]
  | cons f fs2 ih =>
    intro fuel buf X rest stop hok hbuf hX8 hstop hbound hfuel
    obtain ⟨h16, h2i, _, hfne, hsz⟩ := hok f (by simp)
    cases fuel with
    | zero => simp at hfuel
    | succ g =>
      have h24 : file_hdr_size = 24 := rfl
      have hshape : buf = X ++ (fileBlock f ++ (filesBytes fs2 ++ rest)) := by
        rw [hbuf]; simp [filesBytes, List.append_assoc]
      have hblock := fileBlock_length f h16 h2i
      have hpadlt := pad8_lt (file_hdr_size + f.payload.length)
      have hslen : (filesBytes (f :: fs2)).length =
          (fileBlock f).length + (filesBytes fs2).length := by
        simp [filesBytes]
      have hlen : buf.length =
          X.length + ((fileBlock f).length + ((filesBytes fs2).length + rest.length)) := by
        rw [hshape]; simp
      have h1 : X.length < stop := by rw [hslen] at hstop; omega
      have h2 : byteAt buf (X.length + file_type_off) = f.type := by
        rw [hshape, byteAt_append_right _ _ _ (by omega),
          show X.length + file_type_off - X.length = file_type_off by omega]
        exact fileBlock_type f _ h16 h2i
      have hszf : get_size3 buf (X.length + file_size_off) =
          file_hdr_size + f.payload.length := by
        rw [hshape, get_size3_append_right _ _ _ (by omega),
          show X.length + file_size_off - X.length = file_size_off by omega]
        exact fileBlock_sizeField f _ h16 h2i hsz
      have hadv : align8_ptr (X.length + get_size3 buf (X.length + file_size_off)) =
          (X ++ fileBlock f).length := by
        rw [hszf, align8_add _ _ hX8 (by omega), List.length_append, hblock]
        omega
      rw [fileLoop_step_skip g buf X.length stop h1 (by rw [h2]; exact hfne)]
      rw [hadv]
      have e2 : X.length + (filesBytes (f :: fs2)).length =
          (X ++ fileBlock f).length + (filesBytes fs2).length := by
        rw [hslen, List.length_append]; omega
      rw [e2]
      have e3 : g + 1 - (f :: fs2).length = g - fs2.length := by
        simp only [List.length_cons]; omega
      rw [e3]
      exact ih g buf (X ++ fileBlock f) rest stop
        (fun f' hf' => hok f' (by simp [hf']))
        (by rw [hshape]; simp [List.append_assoc])
        (by rw [List.length_append]; have := fileBlock_length_mod f h16 h2i; omega)
        (by rw [List.length_append]; rw [hslen] at hstop; omega)
        hbound
        (by simp only [List.length_cons] at hfuel; omega)

/-! The TE section's scanned fields. -/

theorem teSect_length (mid : List Nat) (entry : Nat) (tail : List Nat)
    (h6 : mid.length = 6) :
    (teSect mid entry tail).length = 16 + tail.length := by
  simp [teSect, teBody, size3enc, le32enc, h6]
  omega

theorem teSect_type (mid : List Nat) (entry : Nat) (tail R : List Nat) :
    byteAt (teSect mid entry tail ++ R) 3 = SECTION_TE := by
  simp [teSect, teBody, size3enc, byteAt]

theorem teSect_sign (mid : List Nat) (entry : Nat) (tail R : List Nat) :
    le16 (teSect mid entry tail ++ R) 4 = te_sign := by
  have h4 : byteAt (teSect mid entry tail ++ R) 4 = 86 := by
    simp [teSect, teBody, size3enc, byteAt]
  have h5 : byteAt (teSect mid entry tail ++ R) 5 = 90 := by
    simp [teSect, teBody, size3enc, byteAt]
  rw [le16, h4, h5]
  decide

theorem teSect_entry (mid : List Nat) (entry : Nat) (tail R : List Nat)
    (h6 : mid.length = 6) (hentry : entry < 2 ^ 32) :
    le32 (teSect mid entry tail ++ R) 12 = entry := by
  have hshape : teSect mid entry tail ++ R =
      (size3enc (sect_hdr_size + (teBody mid entry tail).length) ++
        ([SECTION_TE] ++ ([86, 90] ++ mid))) ++ (le32enc entry ++ (tail ++ R)) := by
    simp [teSect, teBody, List.append_assoc]
  have hXlen : (size3enc (sect_hdr_size + (teBody mid entry tail).length) ++
      ([SECTION_TE] ++ ([86, 90] ++ mid))).length = 12 := by
    simp [size3enc, h6]
  rw [hshape, le32_append_right _ _ 12 (by omega), hXlen]
  rw [Nat.sub_self, le32_enc]
  omega

theorem fileHdrBytes_length (f : FileSpec) (h16 : f.guid.length = 16)
    (h2 : f.int2.length = 2) : (fileHdrBytes f).length = 24 := by
  simp [fileHdrBytes, size3enc, h16, h2]

theorem byteAt_replicate_zero (n i : Nat) : byteAt (List.replicate n 0) i = 0 := by
  induction n generalizing i with
  | zero => simp [byteAt]
  | succ m ih =>
    cases i with
    | zero => simp [byteAt, List.replicate_succ]
    | succ j =>
      simp only [byteAt, List.replicate_succ, List.getD_cons_succ]
      exact ih j

theorem filesBytes_mod8 (fs : List FileSpec) (h : ∀ f ∈ fs, f.ok) :
    (filesBytes fs).length % 8 = 0 := by
  induction fs with
  | nil => simp [filesBytes]
  | cons f fs2 ih =>
    obtain ⟨h16, h2i, _, _, _⟩ := h f (by simp)
    have h1 := fileBlock_length_mod f h16 h2i
    have h2 := ih (fun f' hf' => h f' (by simp [hf']))
    simp only [filesBytes, List.length_append]
    omega

/-- Success of the section scan on a well-formed Security-Core file: the
file at offset `X.length` carries the sections of the builder, so the
scan skips the non-TE sections and returns the TE entry point. -/
theorem get_sec_found (fuel : Nat) (buf X rest : List Nat) (f : FileSpec)
    (preSecs : List SectSpec) (mid : List Nat) (entry : Nat) (tail : List Nat)
    (h16 : f.guid.length = 16) (h2i : f.int2.length = 2)
    (hpay : f.payload = sectsBytes preSecs ++ teSect mid entry tail)
    (h6 : mid.length = 6) (hentry : entry < 2 ^ 32)
    (hok : ∀ t ∈ preSecs, t.ok)
    (hsz : file_hdr_size + f.payload.length ≤ 0x0fff)
    (hbuf : buf = X ++ (fileBlock f ++ rest))
    (hX8 : X.length % 8 = 0)
    (hbound : buf.length + 8 < 2 ^ 64)
    (hfuel : preSecs.length + 1 ≤ fuel) :
    get_sec_entry_point fuel buf X.length = some entry := by
  have h24 : file_hdr_size = 24 := rfl
  have h4 : sect_hdr_size = 4 := rfl
  have hblock := fileBlock_length f h16 h2i
  have hlen : buf.length = X.length + ((fileBlock f).length + rest.length) := by
    rw [hbuf]; simp
  have hszf : get_size3 buf (X.length + file_size_off) =
      file_hdr_size + f.payload.length := by
    rw [hbuf, get_size3_append_right _ _ _ (by omega),
      show X.length + file_size_off - X.length = file_size_off by omega]
    exact fileBlock_sizeField f _ h16 h2i hsz
  have hstart : align4_ptr (X.length + file_hdr_size) = X.length + 24 := by
    rw [align4_add _ _ (by omega) (by omega), h24]
    have : pad4 24 = 0 := by decide
    rw [this]
  have hteLen := teSect_length mid entry tail h6
  have hpayLen : f.payload.length =
      (sectsBytes preSecs).length + (16 + tail.length) := by
    rw [hpay, List.length_append, hteLen]
  have hshape2 : buf = (X ++ fileHdrBytes f) ++
      (sectsBytes preSecs ++ (teSect mid entry tail ++
        (List.replicate (pad8 (file_hdr_size + f.payload.length)) 0 ++ rest))) := by
    rw [hbuf]
    conv in fileBlock f => rw [fileBlock, fileBytes, hpay]
    simp [List.append_assoc]
    congr 1
    omega
  have hX2len : (X ++ fileHdrBytes f).length = X.length + 24 := by
    rw [List.length_append, fileHdrBytes_length f h16 h2i]
  simp only [get_sec_entry_point]
  rw [hszf, hstart]
  have hrun := secLoop_run preSecs fuel buf (X ++ fileHdrBytes f)
    (teSect mid entry tail ++
      (List.replicate (pad8 (file_hdr_size + f.payload.length)) 0 ++ rest))
    (X.length + file_hdr_size + (file_hdr_size + f.payload.length))
    hok hshape2
    (by rw [hX2len]; omega)
    (by rw [hX2len]; omega)
    hbound
    (by omega)
  rw [hX2len] at hrun
  rw [show X.length + file_hdr_size + (file_hdr_size + f.payload.length) =
    X.length + 24 + (file_hdr_size + f.payload.length) by rw [h24]] at hrun ⊢
  rw [hrun]
  obtain ⟨g, hg⟩ : ∃ g, fuel - preSecs.length = g + 1 :=
    ⟨fuel - preSecs.length - 1, by omega⟩
  rw [hg]
  have hshape3 : buf = ((X ++ fileHdrBytes f) ++ sectsBytes preSecs) ++
      (teSect mid entry tail ++
        (List.replicate (pad8 (file_hdr_size + f.payload.length)) 0 ++ rest)) := by
    rw [hshape2]; simp [List.append_assoc]
  have hX3len : ((X ++ fileHdrBytes f) ++ sectsBytes preSecs).length =
      X.length + 24 + (sectsBytes preSecs).length := by
    rw [List.length_append, hX2len]
  have hty : byteAt buf (X.length + 24 + (sectsBytes preSecs).length + 3) =
      SECTION_TE := by
    rw [hshape3, byteAt_append_right _ _ _ (by rw [hX3len]; omega), hX3len]
    rw [show X.length + 24 + (sectsBytes preSecs).length + 3 -
      (X.length + 24 + (sectsBytes preSecs).length) = 3 by omega]
    exact teSect_type mid entry tail _
  have hsig : check_te_sign buf
      (X.length + 24 + (sectsBytes preSecs).length + sect_hdr_size) = true := by
    rw [check_te_sign]
    rw [h4, hshape3, le16_append_right _ _ _ (by rw [hX3len]; omega), hX3len]
    rw [show X.length + 24 + (sectsBytes preSecs).length + 4 -
      (X.length + 24 + (sectsBytes preSecs).length) = 4 by omega]
    rw [teSect_sign]
    simp
  rw [secLoop_step_te g buf _ _ (by omega) hty hsig]
  rw [hshape3, le32_append_right _ _ _ (by rw [hX3len]; rw [h4]; omega), hX3len]
  rw [show X.length + 24 + (sectsBytes preSecs).length + sect_hdr_size + te_entry_off -
    (X.length + 24 + (sectsBytes preSecs).length) = 12 by
      rw [h4, show te_entry_off = 8 from rfl]; omega]
  rw [teSect_entry mid entry tail _ h6 hentry]

/-! Header fields of the synthetic image. -/

theorem mkImage_eq (s : ImageSpec) :
    mkImage s = s.hdrRegion ++
      (filesBytes s.pre ++ (fileBlock s.secSpec ++ s.trail)) := by
  simp [mkImage, ImageSpec.hdrRegion, List.append_assoc]

theorem hdrRegion_length (s : ImageSpec) (h16 : s.fvGuid.length = 16)
    (h4a : s.fvAttrs.length = 4) :
    s.hdrRegion.length = s.hdrLen + pad8 s.hdrLen := by
  simp [ImageSpec.hdrRegion, le64enc, le16enc, h16, h4a, ImageSpec.hdrLen,
    FV_SIGNATURE]
  omega

theorem mkImage_sig (s : ImageSpec) (h16 : s.fvGuid.length = 16) :
    le32 (mkImage s) 40 = fv_sign := by
  have hshape : mkImage s = (List.replicate 16 0 ++ (s.fvGuid ++ le64enc s.fvLen)) ++
      (FV_SIGNATURE ++ (s.fvAttrs ++ (le16enc s.hdrLen ++ (s.filler ++
        (List.replicate (pad8 s.hdrLen) 0 ++ (filesBytes s.pre ++
          (fileBlock s.secSpec ++ s.trail))))))) := by
    simp [mkImage, List.append_assoc]
  have hXlen : (List.replicate 16 0 ++ (s.fvGuid ++ le64enc s.fvLen)).length = 40 := by
    simp [le64enc, h16]
  rw [hshape, le32_append_right _ _ 40 (by omega), hXlen, Nat.sub_self]
  rfl

theorem mkImage_rv (s : ImageSpec) : reset_vector_empty (mkImage s) = true := by
  rw [reset_vector_empty, List.all_eq_true]
  intro i hi
  have hilt : i < 16 := List.mem_range.mp hi
  have hshape : mkImage s = List.replicate 16 0 ++ (s.fvGuid ++ (le64enc s.fvLen ++
      (FV_SIGNATURE ++ (s.fvAttrs ++ (le16enc s.hdrLen ++ (s.filler ++
        (List.replicate (pad8 s.hdrLen) 0 ++ (filesBytes s.pre ++
          (fileBlock s.secSpec ++ s.trail))))))))) := by
    simp [mkImage, List.append_assoc]
  rw [hshape, byteAt_append_left _ _ i (by simp; omega), byteAt_replicate_zero]
  rfl

theorem mkImage_hdrLen (s : ImageSpec) (h16 : s.fvGuid.length = 16)
    (h4a : s.fvAttrs.length = 4) (hh : s.hdrLen < 65536) :
    le16 (mkImage s) 48 = s.hdrLen := by
  have hshape : mkImage s = (List.replicate 16 0 ++ (s.fvGuid ++ (le64enc s.fvLen ++
      (FV_SIGNATURE ++ s.fvAttrs)))) ++ (le16enc s.hdrLen ++ (s.filler ++
        (List.replicate (pad8 s.hdrLen) 0 ++ (filesBytes s.pre ++
          (fileBlock s.secSpec ++ s.trail))))) := by
    simp [mkImage, List.append_assoc]
  have hXlen : (List.replicate 16 0 ++ (s.fvGuid ++ (le64enc s.fvLen ++
      (FV_SIGNATURE ++ s.fvAttrs)))).length = 48 := by
    simp [le64enc, FV_SIGNATURE, h16, h4a]
  rw [hshape, le16_append_right _ _ 48 (by omega), hXlen, Nat.sub_self, le16_enc]
  omega

theorem mkImage_fvLen (s : ImageSpec) (h16 : s.fvGuid.length = 16)
    (hf : s.fvLen < 2 ^ 64) : le64 (mkImage s) 32 = s.fvLen := by
  have hshape : mkImage s = (List.replicate 16 0 ++ s.fvGuid) ++
      (le64enc s.fvLen ++ (FV_SIGNATURE ++ (s.fvAttrs ++ (le16enc s.hdrLen ++
        (s.filler ++ (List.replicate (pad8 s.hdrLen) 0 ++ (filesBytes s.pre ++
          (fileBlock s.secSpec ++ s.trail)))))))) := by
    simp [mkImage, List.append_assoc]
  have hXlen : (List.replicate 16 0 ++ s.fvGuid).length = 32 := by simp [h16]
  rw [hshape, le64_append_right _ _ 32 (by omega), hXlen, Nat.sub_self, le64_enc]
  have : (2:Nat) ^ 64 = 18446744073709551616 := by norm_num
  omega

theorem mkImage_length_ge (s : ImageSpec) (h16 : s.fvGuid.length = 16)
    (h4a : s.fvAttrs.length = 4) (hsg : s.secGuid.length = 16)
    (hsi : s.secInt.length = 2) : fv_hdr_size ≤ (mkImage s).length := by
  have h1 := hdrRegion_length s h16 h4a
  have h2 := fileBlock_length s.secSpec hsg hsi
  have h24 : file_hdr_size = 24 := rfl
  have h56 : fv_hdr_size = 56 := rfl
  have hhl : s.hdrLen = 50 + s.filler.length := rfl
  rw [mkImage_eq]
  simp only [List.length_append]
  omega

/-- On a buffer whose volume header passes all three checks, the probe is
the file scan's verdict: the scan result becomes the returned entry and
the ROM sink receives the whole buffer at address 0 (divergence of the
scan propagates). -/
theorem probe_valid (fuel : Nat) (buf : List Nat)
    (hlen : ¬ buf.length < fv_hdr_size)
    (hsig : le32 buf 40 = fv_sign)
    (hrv : reset_vector_empty buf = true) :
    efi_probe_firmware fuel (some (some buf)) =
      match fileLoop fuel buf (align8_ptr (le16 buf 48)) (le16 buf 48 + le64 buf 32) with
      | none => none
      | some e => some ⟨e, [⟨buf, 0⟩], true⟩ := by
  simp only [efi_probe_firmware, load_firmware, get_entry_point]
  rw [if_neg hlen, if_neg (by simp [hsig]), if_neg (by simp [hrv])]
  cases h : fileLoop fuel buf (align8_ptr (le16 buf 48)) (le16 buf 48 + le64 buf 32) with
  | none => rfl
  | some e => rfl

/-- C1: for every well-formed synthetic firmware image — valid "_FVH"
signature, all-zero reset vector, exactly one Security-Core file whose
sections contain one TE section with valid "VZ" signature — the probe
returns exactly the 32-bit `entry_point` field of that TE header,
unchanged (and delivers the image to the ROM sink at address 0). -/
theorem c1_wellformed_entry_verbatim (s : ImageSpec) (fuel : Nat) (hwf : s.WF)
    (hfuel : s.pre.length + s.preSecs.length + 2 ≤ fuel) :
    efi_probe_firmware fuel (some (some (mkImage s))) =
      some ⟨s.entry, [⟨mkImage s, 0⟩], true⟩ := by
  obtain ⟨h16, h4a, hsg, hsi, h6, hh, hf, he, hsz, hokp, hoks, himg, hbig⟩ := hwf
  have h24 : file_hdr_size = 24 := rfl
  have h56 : fv_hdr_size = 56 := rfl
  have hlen56 : ¬ (mkImage s).length < fv_hdr_size := by
    have := mkImage_length_ge s h16 h4a hsg hsi
    omega
  rw [probe_valid fuel (mkImage s) hlen56 (mkImage_sig s h16) (mkImage_rv s)]
  rw [mkImage_hdrLen s h16 h4a hh, mkImage_fvLen s h16 hf]
  have hstart : align8_ptr s.hdrLen = s.hdrLen + pad8 s.hdrLen := by
    have h := align8_add 0 s.hdrLen (by omega) (by omega)
    simpa using h
  rw [hstart]
  have hhdrlen := hdrRegion_length s h16 h4a
  have hpad := pad8_lt s.hdrLen
  have hsecblock := fileBlock_length s.secSpec hsg hsi
  have himglen : (mkImage s).length = s.hdrRegion.length +
      ((filesBytes s.pre).length + ((fileBlock s.secSpec).length + s.trail.length)) := by
    rw [mkImage_eq]; simp
  have hrun := fileLoop_run s.pre fuel (mkImage s) s.hdrRegion
    (fileBlock s.secSpec ++ s.trail) (s.hdrLen + s.fvLen) hokp (mkImage_eq s)
    (by rw [hhdrlen]; have := pad8_mod s.hdrLen; omega)
    (by omega)
    (by omega)
    (by omega)
  rw [hhdrlen] at hrun
  rw [hrun]
  obtain ⟨g, hg⟩ : ∃ g, fuel - s.pre.length = g + 1 :=
    ⟨fuel - s.pre.length - 1, by omega⟩
  rw [hg]
  have hshape1 : mkImage s = (s.hdrRegion ++ filesBytes s.pre) ++
      (fileBlock s.secSpec ++ s.trail) := by
    rw [mkImage_eq]; simp [List.append_assoc]
  have hX1 : (s.hdrRegion ++ filesBytes s.pre).length =
      s.hdrLen + pad8 s.hdrLen + (filesBytes s.pre).length := by
    rw [List.length_append, hhdrlen]
  have hty : byteAt (mkImage s)
      (s.hdrLen + pad8 s.hdrLen + (filesBytes s.pre).length + file_type_off) =
      SECURITY_CORE := by
    rw [hshape1, byteAt_append_right _ _ _ (by rw [hX1]; omega), hX1]
    rw [show s.hdrLen + pad8 s.hdrLen + (filesBytes s.pre).length + file_type_off -
      (s.hdrLen + pad8 s.hdrLen + (filesBytes s.pre).length) = file_type_off by omega]
    exact fileBlock_type s.secSpec _ hsg hsi
  rw [fileLoop_step_sec g (mkImage s) _ _ (by omega) hty]
  have hfound := get_sec_found g (mkImage s) (s.hdrRegion ++ filesBytes s.pre)
    s.trail s.secSpec s.preSecs s.teMid s.entry s.teTail hsg hsi rfl h6 he hoks hsz
    hshape1
    (by rw [hX1]; have := pad8_mod s.hdrLen
        have := filesBytes_mod8 s.pre hokp; omega)
    (by omega)
    (by omega)
  rw [hX1] at hfound
  rw [hfound]

/-! Bounds of the ghost position observers, and the not-found path. -/

theorem get_size3_le (buf : List Nat) (off : Nat) : get_size3 buf off ≤ 0x0fff :=
  Nat.and_le_right

theorem secLoopPositions_bounds (fuel : Nat) :
    ∀ (buf : List Nat) (ptr stop : Nat), stop < 2 ^ 63 →
      ∀ p ∈ secLoopPositions fuel buf ptr stop, ptr ≤ p ∧ p < stop := by
  induction fuel with
  | zero => intro buf ptr stop _ p hp; simp [secLoopPositions] at hp
  | succ n ih =>
    intro buf ptr stop hstop p hp
    have e63 : (2:Nat) ^ 63 = 9223372036854775808 := by norm_num
    have e64 : (2:Nat) ^ 64 = 18446744073709551616 := by norm_num
    simp only [secLoopPositions] at hp
    by_cases h1 : ptr < stop
    · rw [if_pos h1] at hp
      by_cases h2 : byteAt buf (ptr + 3) ≠ SECTION_TE
      · rw [if_pos h2] at hp
        rcases List.mem_cons.mp hp with heq | hp2
        · subst heq; exact ⟨le_refl _, h1⟩
        · have hsz := get_size3_le buf ptr
          have hnext : ptr ≤ align4_ptr (ptr + get_size3 buf ptr) := by
            rw [align4_eq _ (by omega)]
            omega
          have hrec := ih buf _ stop hstop p hp2
          exact ⟨le_trans hnext hrec.1, hrec.2⟩
      · rw [if_neg h2] at hp
        simp at hp
        subst hp; exact ⟨le_refl _, h1⟩
    · rw [if_neg h1] at hp; simp at hp

theorem fileLoopPositions_bounds (fuel : Nat) :
    ∀ (buf : List Nat) (ptr stop : Nat), stop < 2 ^ 63 →
      ∀ p ∈ fileLoopPositions fuel buf ptr stop, ptr ≤ p ∧ p < stop := by
  induction fuel with
  | zero => intro buf ptr stop _ p hp; simp [fileLoopPositions] at hp
  | succ n ih =>
    intro buf ptr stop hstop p hp
    have e63 : (2:Nat) ^ 63 = 9223372036854775808 := by norm_num
    have e64 : (2:Nat) ^ 64 = 18446744073709551616 := by norm_num
    simp only [fileLoopPositions] at hp
    by_cases h1 : ptr < stop
    · rw [if_pos h1] at hp
      by_cases h2 : byteAt buf (ptr + file_type_off) = SECURITY_CORE
      · rw [if_pos h2] at hp
        simp at hp
        subst hp; exact ⟨le_refl _, h1⟩
      · rw [if_neg h2] at hp
        rcases List.mem_cons.mp hp with heq | hp2
        · subst heq; exact ⟨le_refl _, h1⟩
        · have hsz := get_size3_le buf (ptr + file_size_off)
          have hnext : ptr ≤ align8_ptr (ptr + get_size3 buf (ptr + file_size_off)) := by
            rw [align8_eq _ (by omega)]
            omega
          have hrec := ih buf _ stop hstop p hp2
          exact ⟨le_trans hnext hrec.1, hrec.2⟩
    · rw [if_neg h1] at hp; simp at hp

theorem noSec_fileLoop (fuel : Nat) :
    ∀ (buf : List Nat) (ptr stop : Nat),
      fileLoopFoundSec fuel buf ptr stop = some false →
      fileLoop fuel buf ptr stop = some EFI_INVALID_ENTRY_POINT := by
  induction fuel with
  | zero => intro buf ptr stop h; simp [fileLoopFoundSec] at h
  | succ n ih =>
    intro buf ptr stop h
    by_cases h1 : ptr < stop
    · by_cases h2 : byteAt buf (ptr + file_type_off) = SECURITY_CORE
      · exfalso
        simp only [fileLoopFoundSec] at h
        rw [if_pos h1, if_pos h2] at h
        simp at h
      · simp only [fileLoopFoundSec] at h
        rw [if_pos h1, if_neg h2] at h
        rw [fileLoop_step_skip n buf ptr stop h1 h2]
        exact ih _ _ _ h
    · exact fileLoop_stop n buf ptr stop h1

/-! The claims. -/

/-- Closed instance of the C1 theorem at a concrete minimal image with
entry point 4660 (0x1234). -/
theorem c1_witness :
    efi_probe_firmware 2 (some (some (mkImage (mkSimpleSpec 4660)))) =
      some ⟨4660, [⟨mkImage (mkSimpleSpec 4660), 0⟩], true⟩ :=
  c1_wellformed_entry_verbatim (mkSimpleSpec 4660) 2 (by decide) (by decide)

/-- C2 (code bug): on a short header read the code returns 0, not the
sentinel: `efi_probe_firmware` on a 10-byte file yields entry 0 with no
ROM-sink call, while a failed `open` yields the sentinel — contradicting
the claim (and efi.h's contract) that both failures surface as
`EFI_INVALID_ENTRY_POINT`. -/
theorem c2_short_read_returns_zero :
    (∀ fuel, efi_probe_firmware fuel (some (some shortFile)) =
      some ⟨0, [], true⟩) ∧
    (∀ fuel, efi_probe_firmware fuel (some none) =
      some ⟨EFI_INVALID_ENTRY_POINT, [], true⟩) ∧
    (0 : Nat) ≠ EFI_INVALID_ENTRY_POINT :=
  ⟨fun _ => rfl, fun _ => rfl, by decide⟩

/-- C3 (counterexample): for the Security-Core file at offset 0 of
`bufC3`, whose size field decodes to 24 (empty payload), the section
scan decodes a section header at offset 24, which is at the payload end
`0 + get_size(size)` — the claim that no section header is decoded at or
beyond the payload end is false. -/
theorem c3_counterexample :
    ¬ (∀ p ∈ secScanPositions 1 bufC3 0,
        align4_ptr (0 + file_hdr_size) ≤ p ∧
          p < 0 + get_size3 bufC3 (0 + file_size_off)) := by
  decide

/-- C3 (amended): the section scan decodes section headers only within
`[align4(file + 24), file + 24 + get_size(file->size))` — the upper
bound is the file header's end plus the decoded size, which exceeds the
payload end (`file + get_size(file->size)`) by the 24-byte header. -/
theorem c3_amended_scan_range (fuel : Nat) (buf : List Nat) (file : Nat)
    (hbound : file + file_hdr_size + get_size3 buf (file + file_size_off) < 2 ^ 63) :
    ∀ p ∈ secScanPositions fuel buf file,
      align4_ptr (file + file_hdr_size) ≤ p ∧
        p < file + file_hdr_size + get_size3 buf (file + file_size_off) :=
  fun p hp => secLoopPositions_bounds fuel buf _ _ hbound p hp

theorem c3_amended_witness :
    24 ∈ secScanPositions 1 bufC3 0 ∧
      (align4_ptr (0 + file_hdr_size) ≤ 24 ∧
        24 < 0 + file_hdr_size + get_size3 bufC3 (0 + file_size_off)) :=
  ⟨by decide, c3_amended_scan_range 1 bufC3 0 (by decide) 24 (by decide)⟩

/-- C4: an input whose header reads successfully but whose signature is
not "_FVH" yields exactly 0 with no ROM-sink call, and so does an input
with a valid signature but a non-zero reset vector; in both cases no
loading or scanning happens. -/
theorem c4_skip_paths_zero (fuel : Nat) (buf : List Nat)
    (hlen : ¬ buf.length < fv_hdr_size) :
    (le32 buf 40 ≠ fv_sign →
      efi_probe_firmware fuel (some (some buf)) = some ⟨0, [], true⟩) ∧
    (le32 buf 40 = fv_sign → reset_vector_empty buf = false →
      efi_probe_firmware fuel (some (some buf)) = some ⟨0, [], true⟩) := by
  constructor
  · intro h
    simp only [efi_probe_firmware]
    rw [if_neg hlen, if_pos h]
  · intro hsig hrv
    simp only [efi_probe_firmware]
    rw [if_neg hlen, if_neg (by simp [hsig]), if_pos (by simp [hrv])]

theorem c4_witness :
    efi_probe_firmware 1 (some (some bufBadSig)) = some ⟨0, [], true⟩ ∧
      efi_probe_firmware 1 (some (some bufRv)) = some ⟨0, [], true⟩ :=
  ⟨(c4_skip_paths_zero 1 bufBadSig (by decide)).1 (by decide),
    (c4_skip_paths_zero 1 bufRv (by decide)).2 (by decide) (by decide)⟩

/-- C5: a valid volume (signature and zero reset vector) whose file scan
terminates without finding a Security-Core file yields the sentinel, and
the ROM sink is still invoked once with the full file contents at load
address 0. -/
theorem c5_no_sec_rom_still_loaded (fuel : Nat) (buf : List Nat)
    (hlen : ¬ buf.length < fv_hdr_size)
    (hsig : le32 buf 40 = fv_sign)
    (hrv : reset_vector_empty buf = true)
    (hnosec : fileLoopFoundSec fuel buf (align8_ptr (le16 buf 48))
      (le16 buf 48 + le64 buf 32) = some false) :
    efi_probe_firmware fuel (some (some buf)) =
      some ⟨EFI_INVALID_ENTRY_POINT, [⟨buf, 0⟩], true⟩ := by
  rw [probe_valid fuel buf hlen hsig hrv, noSec_fileLoop fuel _ _ _ hnosec]

theorem c5_witness :
    efi_probe_firmware 1 (some (some buf5)) =
      some ⟨EFI_INVALID_ENTRY_POINT, [⟨buf5, 0⟩], true⟩ :=
  c5_no_sec_rom_still_loaded 1 buf5 (by decide) (by decide) (by decide) (by decide)

/-- C6 (counterexample): on the valid 56-byte volume `bufC6`, whose
header declares `fv_len` 4096, the file scan decodes a file header at
offset 56 even though offsets 56..79 lie entirely outside the buffer —
the claim that every header read is re-validated against the buffer
length is false. -/
theorem c6_counterexample :
    ¬ (∀ p ∈ fileLoopPositions 1 bufC6 (align8_ptr (le16 bufC6 48))
        (le16 bufC6 48 + le64 bufC6 32),
        p + file_hdr_size ≤ bufC6.length) := by
  decide

/-- C6 (amended): the scans validate each decode offset only against the
header-derived end bound, never against the buffer length; decodes at
offsets past the buffer end are possible (such reads return zero bytes
in this model, matching the C code reading past the allocation). -/
theorem c6_amended_bounds (fuel : Nat) (buf : List Nat) (ptr stop : Nat)
    (hstop : stop < 2 ^ 63) :
    (∀ p ∈ fileLoopPositions fuel buf ptr stop, p < stop) ∧
    (∀ p ∈ secLoopPositions fuel buf ptr stop, p < stop) :=
  ⟨fun p hp => (fileLoopPositions_bounds fuel buf ptr stop hstop p hp).2,
    fun p hp => (secLoopPositions_bounds fuel buf ptr stop hstop p hp).2⟩

theorem c6_amended_witness :
    56 ∈ fileLoopPositions 1 bufC6 56 4152 ∧ (56 : Nat) < 4152 :=
  ⟨by decide, (c6_amended_bounds 1 bufC6 56 4152 (by decide)).1 56 (by decide)⟩

theorem buf7_stuck (n : Nat) : fileLoop n buf7 56 4152 = none := by
  induction n with
  | zero => rfl
  | succ m ih =>
    have h2 : byteAt buf7 (56 + file_type_off) ≠ SECURITY_CORE := by decide
    have hstep := fileLoop_step_skip m buf7 56 4152 (by decide) h2
    rw [show align8_ptr (56 + get_size3 buf7 (56 + file_size_off)) = 56 from
      by decide] at hstep
    rw [hstep, ih]

/-- C7 (code bug): the scans do not always terminate.  `buf7` is a valid
volume holding one non-Security-Core file whose 3-byte size field
encodes 0x1000; the 12-bit mask decodes it to 0, the position never
advances, and `efi_probe_firmware` loops forever — modelled as `none`
for every fuel. -/
theorem c7_scan_divergence :
    ∀ fuel, efi_probe_firmware fuel (some (some buf7)) = none := by
  intro fuel
  rw [probe_valid fuel buf7 (by decide) (by decide) (by decide)]
  rw [show le16 buf7 48 = 56 from by decide,
    show le64 buf7 32 = 4096 from by decide,
    show align8_ptr 56 = 56 from by decide,
    show (56 + 4096 : Nat) = 4152 from by norm_num]
  rw [buf7_stuck fuel]

/-- C8: the 3-byte size decoder masks with 0x0fff, keeping only the low
12 bits; the encoding 0x001234 (bytes 0x34, 0x12, 0x00) decodes to
0x234, not 0x1234. -/
theorem c8_size_mask_12_bits :
    (∀ b0 b1 b2 : Nat,
      get_size b0 b1 b2 = (b0 ||| b1 <<< 8 ||| b2 <<< 16) % 2 ^ 12) ∧
    get_size 52 18 0 = 564 ∧ get_size 52 18 0 ≠ 4660 := by
  refine ⟨fun b0 b1 b2 => ?_, by decide, by decide⟩
  unfold get_size
  rw [show (0x0fff : Nat) = 2 ^ 12 - 1 by norm_num,
    Nat.and_pow_two_sub_one_eq_mod]

/-- C9: a NULL path returns the sentinel immediately: the file is never
opened and the ROM sink is never invoked, for any fuel. -/
theorem c9_null_path_sentinel :
    ∀ fuel, efi_probe_firmware fuel none =
      some ⟨EFI_INVALID_ENTRY_POINT, [], false⟩ :=
  fun _ => rfl

/-- C10: the TE `entry_point` is returned without validation: a
well-formed image whose TE entry field stores 0 makes the probe return 0
(the "skipped" result), and one storing 0xffffffff makes it return the
sentinel — successful results are indistinguishable from both.  Offset
92 is where the builder places the TE header's `entry_point` field. -/
theorem c10_entry_not_validated :
    le32 (mkImage (mkSimpleSpec 0)) 92 = 0 ∧
    efi_probe_firmware 2 (some (some (mkImage (mkSimpleSpec 0)))) =
      some ⟨0, [⟨mkImage (mkSimpleSpec 0), 0⟩], true⟩ ∧
    le32 (mkImage (mkSimpleSpec EFI_INVALID_ENTRY_POINT)) 92 =
      EFI_INVALID_ENTRY_POINT ∧
    efi_probe_firmware 2 (some (some (mkImage (mkSimpleSpec EFI_INVALID_ENTRY_POINT)))) =
      some ⟨EFI_INVALID_ENTRY_POINT,
        [⟨mkImage (mkSimpleSpec EFI_INVALID_ENTRY_POINT), 0⟩], true⟩ :=
  ⟨by decide, by decide, by decide, by decide⟩

end Efi
